import Mathlib

/-!
# OpenGeo — verification of the raster-processing specification

Shallow embedding of the raster utilities of the OpenGeo repository
(`focal/focal_stat_raster.py`, `raster/replace_pixel_value_based_other_rst.py`,
`raster/create_mask.py`, `raster/compute_probability_of_phenomena_using_list.py`)
and proofs about the tile planner, the focal-statistics engine, the
probability accumulation and the pixel-replacement routine.

Pixel values are modelled as exact rationals (`ℚ`) — NumPy's floating point
arithmetic is modelled exactly; the NaN missing marker of the Python code is
modelled as `Option`'s `none`.  Python integers are `ℕ`/`ℤ` as appropriate
(Python's `max(0, a - b)` over possibly-negative ints is computed in `ℤ`).
-/

namespace OpenGeo

/-- A rasterio window / tile with non-negative offsets and sizes, as produced
by `src.block_windows` and by the `range(0, size, tile_size)` loops. -/
structure Tile where
  col_off : ℕ
  row_off : ℕ
  width : ℕ
  height : ℕ
deriving Repr, DecidableEq

/-- Pixel `(x, y)` (column `x`, row `y`) lies inside the tile. -/
def Tile.contains (t : Tile) (x y : ℕ) : Bool :=
  decide (t.col_off ≤ x ∧ x < t.col_off + t.width) &&
    decide (t.row_off ≤ y ∧ y < t.row_off + t.height)

/-- Python's `range(0, n, step)` (for `step > 0`): the multiples of `step`
below `n`, in increasing order. -/
def rangeStep (n step : ℕ) : List ℕ :=
  (List.range ((n + step - 1) / step)).map (· * step)

/-- The tile grid used by `replace_pixel_value` (lines 39–42) and
`create_mask` (lines 105–110): the double loop
`for i in range(0, H, T): for j in range(0, W, T):
  Window(j, i, min(T, W - j), min(T, H - i))`. -/
def tilePlan (W H T : ℕ) : List Tile :=
  (rangeStep H T).flatMap fun i =>
    (rangeStep W T).map fun j =>
      ⟨j, i, min T (W - j), min T (H - i)⟩

/-- A window with `ℤ` coordinates, result of Python integer arithmetic in
`focal_stat_raster`. -/
structure IWindow where
  col_off : ℤ
  row_off : ℤ
  width : ℤ
  height : ℤ
deriving Repr, DecidableEq

/-- The padded window computed in `focal_stat_raster` (lines 78–83):
`Window(max(0, c - pad), max(0, r - pad),
        min(w + 2*pad, src.width - c), min(h + 2*pad, src.height - r))`. -/
def paddedWindow (W H : ℕ) (t : Tile) (pad : ℕ) : IWindow :=
  ⟨max 0 ((t.col_off : ℤ) - pad),
   max 0 ((t.row_off : ℤ) - pad),
   min ((t.width : ℤ) + 2 * pad) ((W : ℤ) - t.col_off),
   min ((t.height : ℤ) + 2 * pad) ((H : ℤ) - t.row_off)⟩

/-- Modelled from the spec: `pad_left` is the number of columns of the
conceptually padded window `[c - pad, c + w + pad)` that fall to the left of
the raster (`focal_stat_raster.py` computes no such count; the spec's §4.2
defines it as the out-of-bounds column count). -/
def padLeftSpec (pad : ℕ) (t : Tile) : ℤ :=
  max 0 ((pad : ℤ) - t.col_off)

/-- Modelled from the spec: `pad_right` is the number of columns of the
conceptually padded window that fall at or beyond `raster_width`. -/
def padRightSpec (W pad : ℕ) (t : Tile) : ℤ :=
  max 0 ((t.col_off : ℤ) + t.width + pad - W)

/-! ## The reducers of `focal_stat` (lines 29–45) -/

/-- Insert into a sorted list (ascending). -/
def insertSorted (x : ℚ) : List ℚ → List ℚ
  | [] => [x]
  | y :: ys => if x ≤ y then x :: y :: ys else y :: insertSorted x ys

/-- Sort ascending (the sort underlying `np.median`). -/
def sortQ (l : List ℚ) : List ℚ := l.foldr insertSorted []

/-- `np.median`: middle element of the sorted values, or the average of the
two middle elements for an even count. -/
def medianQ (l : List ℚ) : ℚ :=
  let s := sortQ l
  let n := s.length
  if n % 2 = 1 then s.getD (n / 2) 0
  else (s.getD (n / 2 - 1) 0 + s.getD (n / 2) 0) / 2

/-- `np.min` of a non-empty list (0 for the empty list, unreached). -/
def listMinQ : List ℚ → ℚ
  | [] => 0
  | x :: xs => xs.foldl min x

/-- `np.max` of a non-empty list (0 for the empty list, unreached). -/
def listMaxQ : List ℚ → ℚ
  | [] => 0
  | x :: xs => xs.foldl max x

/-- `np.mean`. -/
def meanQ (l : List ℚ) : ℚ := l.sum / (l.length : ℚ)

/-- `np.var`: the population variance, dividing by `N`. -/
def varianceQ (l : List ℚ) : ℚ :=
  ((l.map fun x => (x - meanQ l) ^ 2).sum) / (l.length : ℚ)

/-- `np.std = sqrt (np.var)`: the population standard deviation.  Modelled
separately at `ℝ` (its value is irrational in general); the `"std"` branch of
`focal_stat` computes exactly this quantity. -/
noncomputable def np_std (valid : List ℚ) : ℝ :=
  Real.sqrt ((varianceQ valid : ℚ) : ℝ)

/-- The per-pixel reducer dispatch of `focal_stat` (lines 29–45), complete
with all eight implemented branches in the source's order: with a non-empty
list of valid values, the `if`/`elif` chain on `stat`; any string with no
matching branch (and the empty list) leaves the output cell at its NaN
initialisation, i.e. `none`.  The codomain is `ℝ` because the `"std"`
branch's value `np_std valid` is irrational in general. -/
noncomputable def focal_reduce_real (stat : String) (valid : List ℚ) :
    Option ℝ :=
  if 0 < valid.length then
    if stat = "mean" then some ((meanQ valid : ℚ) : ℝ)
    else if stat = "median" then some ((medianQ valid : ℚ) : ℝ)
    else if stat = "min" then some ((listMinQ valid : ℚ) : ℝ)
    else if stat = "max" then some ((listMaxQ valid : ℚ) : ℝ)
    else if stat = "std" then some (np_std valid)
    else if stat = "sum" then some ((valid.sum : ℚ) : ℝ)
    else if stat = "range" then some ((listMaxQ valid - listMinQ valid : ℚ) : ℝ)
    else if stat = "variance" then some ((varianceQ valid : ℚ) : ℝ)
    else none
  else none

/-- The `ℚ`-valued computational refinement of `focal_reduce_real`, used to
evaluate the pipeline: identical dispatch for the seven rational-valued
stats (`focal_reduce_real_spec` proves the agreement branch by branch), while
the `"std"` branch — implemented in the source, value `np_std valid`, some
irrational — lives only in `focal_reduce_real`.  Strings with no branch in
the source (`majority`, `minority`, `unique_count`, …) fall through to
`none` exactly as in the source.  `focal_reduce` is never applied to
`"std"`. -/
def focal_reduce (stat : String) (valid : List ℚ) : Option ℚ :=
  if 0 < valid.length then
    if stat = "mean" then some (meanQ valid)
    else if stat = "median" then some (medianQ valid)
    else if stat = "min" then some (listMinQ valid)
    else if stat = "max" then some (listMaxQ valid)
    else if stat = "sum" then some valid.sum
    else if stat = "range" then some (listMaxQ valid - listMinQ valid)
    else if stat = "variance" then some (varianceQ valid)
    else none
  else none

/-- One output cell of `focal_stat`: the window values with NaN entries
dropped (`window[~np.isnan(window)]`), then the reducer. -/
def pixelReduce (stat : String) (window : List (Option ℚ)) : Option ℚ :=
  focal_reduce stat (window.filterMap id)

/-- One output cell of `focal_stat` at the faithful `ℝ`-valued dispatch:
NaN entries dropped, then `focal_reduce_real`. -/
noncomputable def pixelReduceReal (stat : String)
    (window : List (Option ℚ)) : Option ℝ :=
  focal_reduce_real stat (window.filterMap id)

/-- The flattened `kernel_size × kernel_size` window
`arr[i-pad:i+pad+1, j-pad:j+pad+1].flatten()` (row-major). -/
def windowAt (arr : List (List (Option ℚ))) (i j pad : ℕ) : List (Option ℚ) :=
  ((arr.drop (i - pad)).take (2 * pad + 1)).flatMap fun row =>
    (row.drop (j - pad)).take (2 * pad + 1)

/-- Python's slice `a[p:-p]`: for `p > 0` the elements from index `p` up to
`len - p`; for `p = 0` the slice `a[0:-0] = a[0:0]` is empty. -/
def pyTrim (p : ℕ) (l : List α) : List α :=
  if p = 0 then [] else (l.drop p).take (l.length - 2 * p)

/-- `focal_stat` (lines 19–47): output initialised to NaN, cells
`(i, j)` with `pad ≤ i < H - pad`, `pad ≤ j < W - pad` set to the reduced
window, then the padding trimmed from both axes. -/
def focal_stat (arr : List (List (Option ℚ))) (ksize : ℕ) (stat : String) :
    List (List (Option ℚ)) :=
  let pad := ksize / 2
  let H := arr.length
  let W := (arr.headD []).length
  let out := (List.range H).map fun i =>
    (List.range W).map fun j =>
      if pad ≤ i ∧ i + pad < H ∧ pad ≤ j ∧ j + pad < W then
        pixelReduce stat (windowAt arr i j pad)
      else none
  (pyTrim pad out).map (pyTrim pad)

/-! ## The driver `focal_stat_raster` (lines 60–97) -/

/-- One cell of a boundless read: in-range cells come from the data, cells
outside the raster come back as the fill value 0 (rasterio's default). -/
def readCell (data : List (List ℚ)) (i j : ℤ) : ℚ :=
  if 0 ≤ i ∧ 0 ≤ j then ((data.getD i.toNat []).getD j.toNat 0) else 0

/-- `src.read(1, window=w, boundless=True)`. -/
def boundlessRead (data : List (List ℚ)) (w : IWindow) : List (List ℚ) :=
  (List.range w.height.toNat).map fun r =>
    (List.range w.width.toNat).map fun c =>
      readCell data (w.row_off + r) (w.col_off + c)

/-- The source raster: dimensions, declared NoData sentinel (if any) and
band-1 data in row-major order. -/
structure SrcRaster where
  width : ℕ
  height : ℕ
  nodata : Option ℚ
  data : List (List ℚ)

/-- The message of the `ValueError` raised when no NoData value is set. -/
def noDataMsg : String :=
  "NoData value is not set in the input raster. Please define it."

/-- The error rasterio raises when the array shape does not match the
destination window of `dst.write`. -/
def shapeMsg : String :=
  "shape of the array does not match the destination window"

/-- The per-block body of `focal_stat_raster` (lines 75–97): compute the
padded window, boundless-read it, turn cells equal to the input NoData into
NaN, run `focal_stat`, replace NaN by the output sentinel −9999, and write —
rasterio's `dst.write` demands that the array shape equal the window shape. -/
def processTile (src : SrcRaster) (nd : ℚ) (ksize : ℕ) (stat : String)
    (t : Tile) : Except String (List (List ℚ)) :=
  let pad := ksize / 2
  let pw := paddedWindow src.width src.height t pad
  let arr := boundlessRead src.data pw
  let arrOpt := arr.map (·.map fun x => if x = nd then none else some x)
  let filtered := focal_stat arrOpt ksize stat
  let out := filtered.map (·.map fun o => o.getD (-9999))
  if out.length = t.height ∧ out.all fun r => r.length = t.width then
    Except.ok out
  else Except.error shapeMsg

/-- `focal_stat_raster` (lines 60–97): pre-flight NoData check, then one
pass over the blocks, accumulating the written tiles. -/
def focal_stat_raster (src : SrcRaster) (blocks : List Tile) (ksize : ℕ)
    (stat : String) : Except String (List (Tile × List (List ℚ))) :=
  match src.nodata with
  | none => Except.error noDataMsg
  | some nd =>
      blocks.foldlM
        (fun acc t => (processTile src nd ksize stat t).map
          fun out => acc ++ [(t, out)]) []

/-- The `choices` list of the `stat` CLI argument (lines 112–114). -/
def cliStatChoices : List String :=
  ["mean", "max", "min", "median", "std", "sum", "range", "variance",
   "majority", "minority", "unique_count"]

/-! ## `compute_probability_of_phenomena` (both the list and folder variants) -/

/-- One input raster for the probability accumulation: its band-1 data (as a
total function on row/column indices) together with the block windows its
`src.block_windows()` yields. -/
structure PRaster where
  data : ℕ → ℕ → ℤ
  blocks : List Tile

/-- `src.block_windows()` tiles the raster grid exactly once: every pixel of
`[0, W) × [0, H)` lies in exactly one block (rasterio's guarantee). -/
def coversOnce (W H : ℕ) (bs : List Tile) : Prop :=
  ∀ x y, x < W → y < H → bs.countP (fun t => t.contains x y) = 1

/-- The in-place update
`total[w.row_off : w.row_off+h, w.col_off : w.col_off+w] += (data == v)`
for one window: inside the window, add 1 where the data equals the phenomena
value. -/
def addWindowOcc (dat : ℕ → ℕ → ℤ) (v : ℤ) (w : Tile) (acc : ℕ → ℕ → ℤ) :
    ℕ → ℕ → ℤ :=
  fun y x => acc y x + if w.contains x y ∧ dat y x = v then 1 else 0

/-- The inner loop over one raster's block windows. -/
def processRasterOcc (r : PRaster) (v : ℤ) (acc : ℕ → ℕ → ℤ) : ℕ → ℕ → ℤ :=
  r.blocks.foldl (fun a w => addWindowOcc r.data v w a) acc

/-- `total_occurrences`: starts at `np.zeros`, then one pass per raster. -/
def totalOccurrences (rs : List PRaster) (v : ℤ) : ℕ → ℕ → ℤ :=
  rs.foldl (fun a r => processRasterOcc r v a) (fun _ _ => 0)

/-- `probability_of_phenomena = total_occurrences / total_rasters`. -/
def probabilityOfPhenomena (rs : List PRaster) (v : ℤ) : ℕ → ℕ → ℚ :=
  fun y x => (totalOccurrences rs v y x : ℚ) / (rs.length : ℚ)

/-! ## `replace_pixel_value` (lines 44–55) -/

/-- One tile write of `replace_pixel_value`: inside the tile the output cell
is the reference value where the source equals `value_to_replace` and the
source value elsewhere (`data_source[replace_mask] = data_reference[replace_mask]`);
outside the tile the output raster is untouched. -/
def writeTile (srcD refD : ℕ → ℕ → ℤ) (v : ℤ) (out : ℕ → ℕ → ℤ) (w : Tile) :
    ℕ → ℕ → ℤ :=
  fun y x =>
    if w.contains x y then (if srcD y x = v then refD y x else srcD y x)
    else out y x

/-- `replace_pixel_value`'s tile loop (lines 39–55) over the processed band:
every tile of the plan is read, masked and written. -/
def replace_pixel_value (W H T : ℕ) (srcD refD : ℕ → ℕ → ℤ) (v : ℤ) :
    ℕ → ℕ → ℤ :=
  (tilePlan W H T).foldl (writeTile srcD refD v) (fun _ _ => 0)

/-- Row-major tile order: earlier rows first, then earlier columns. -/
def rowMajorLT (a b : Tile) : Prop :=
  a.row_off < b.row_off ∨ (a.row_off = b.row_off ∧ a.col_off < b.col_off)

/-! ## Lemmas about the tile grid -/

lemma countP_decide_mem (l : List ℕ) (c : ℕ) (hnd : l.Nodup) (hc : c ∈ l) :
    l.countP (fun k => decide (k = c)) = 1 := by
  induction l with
  | nil => cases hc
  | cons a l ih =>
    rcases List.mem_cons.mp hc with rfl | hc'
    · rw [List.countP_cons_of_pos _ _ (by simp)]
      have hz : l.countP (fun k => decide (k = c)) = 0 := by
        refine List.countP_eq_zero.mpr fun b hb => ?_
        simp only [decide_eq_true_eq]
        rintro rfl
        exact (List.nodup_cons.mp hnd).1 hb
      rw [hz]
    · have ha : a ≠ c := by
        rintro rfl
        exact (List.nodup_cons.mp hnd).1 hc'
      rw [List.countP_cons_of_neg _ _ (by simp [ha])]
      exact ih (List.nodup_cons.mp hnd).2 hc'

lemma window_cover_step {a x n T : ℕ} (_h1 : a ≤ x) (h2 : x < a + T)
    (hx : x < n) : x < a + min T (n - a) := by
  rcases Nat.le_total T (n - a) with hmin | hmin
  · rw [min_eq_left hmin]; exact h2
  · rw [min_eq_right hmin]; omega

/-- Among the multiples of `T` below `n`, exactly one window `[j, j + min T (n-j))`
contains a given `x < n`, namely `j = (x / T) * T`. -/
lemma countP_rangeStep_window {T n x : ℕ} (hT : 0 < T) (hx : x < n) :
    (rangeStep n T).countP (fun j => decide (j ≤ x ∧ x < j + min T (n - j))) = 1 := by
  have hmlt := Nat.mod_lt x hT
  unfold rangeStep
  rw [List.countP_map]
  have hdm : x / T * T + x % T = x := by
    rw [Nat.mul_comm]; exact Nat.div_add_mod x T
  have h1 : x < x / T * T + T := by
    calc x = x / T * T + x % T := hdm.symm
      _ < x / T * T + T := Nat.add_lt_add_left hmlt _
  have hpred : ((fun j => decide (j ≤ x ∧ x < j + min T (n - j))) ∘ (· * T))
      = fun k => decide (k = x / T) := by
    funext k
    simp only [Function.comp_apply, decide_eq_decide]
    constructor
    · rintro ⟨ha, hb⟩
      have hb' : x < (k + 1) * T := by
        have hmin := min_le_left T (n - k * T)
        have := Nat.add_le_add_left hmin (k * T)
        rw [Nat.succ_mul]
        exact lt_of_lt_of_le hb this
      exact (Nat.div_eq_of_lt_le ha hb').symm
    · rintro rfl
      exact ⟨Nat.div_mul_le_self x T,
        window_cover_step (Nat.div_mul_le_self x T) h1 hx⟩
  rw [hpred]
  have hn : 0 < n := lt_of_le_of_lt (Nat.zero_le x) hx
  refine countP_decide_mem _ _ (List.nodup_range _) (List.mem_range.mpr ?_)
  have he : n + T - 1 = (n - 1) + T := by omega
  rw [he, Nat.add_div_right _ hT]
  exact Nat.lt_succ_of_le (Nat.div_le_div_right (by omega))

lemma countP_and_const (l : List α) (p : α → Bool) (b : Bool) :
    (l.countP fun a => p a && b) = if b then l.countP p else 0 := by
  cases b with
  | false =>
    simp only [Bool.and_false, if_neg Bool.false_ne_true]
    exact List.countP_eq_zero.mpr fun a _ => by simp
  | true => simp

lemma sum_map_ite_one (p : α → Bool) (l : List α) :
    (l.map fun a => if p a then 1 else 0).sum = l.countP p := by
  induction l with
  | nil => rfl
  | cons a l ih =>
    rw [List.map_cons, List.sum_cons, List.countP_cons, ih]
    omega

lemma countP_flatMap_eq (p : β → Bool) (l : List α) (f : α → List β) :
    (l.flatMap f).countP p = (l.map fun a => (f a).countP p).sum := by
  induction l with
  | nil => rfl
  | cons a l ih => simp [List.flatMap_cons, List.countP_append, ih]

/-- Every in-range pixel lies in exactly one tile of the plan. -/
lemma tilePlan_coversOnce_point {W H T x y : ℕ} (hT : 0 < T) (hx : x < W)
    (hy : y < H) :
    (tilePlan W H T).countP (fun t => t.contains x y) = 1 := by
  unfold tilePlan
  rw [countP_flatMap_eq]
  have hinner : ∀ i : ℕ,
      ((rangeStep W T).map fun j =>
        (⟨j, i, min T (W - j), min T (H - i)⟩ : Tile)).countP
          (fun t => t.contains x y)
      = if decide (i ≤ y ∧ y < i + min T (H - i)) then 1 else 0 := by
    intro i
    rw [List.countP_map]
    have hc : ((fun t => Tile.contains t x y) ∘
        fun j => (⟨j, i, min T (W - j), min T (H - i)⟩ : Tile))
        = fun j => (decide (j ≤ x ∧ x < j + min T (W - j)) &&
            decide (i ≤ y ∧ y < i + min T (H - i))) := by
      funext j; rfl
    rw [hc, countP_and_const, countP_rangeStep_window hT hx]
  rw [List.map_congr_left fun i _ => hinner i, sum_map_ite_one,
    countP_rangeStep_window hT hy]

lemma rangeStep_mul_lt {n T k : ℕ} (hT : 0 < T) (hk : k < (n + T - 1) / T) :
    k * T < n := by
  have h1 : (k + 1) * T ≤ ((n + T - 1) / T) * T :=
    Nat.mul_le_mul_right _ (Nat.succ_le_of_lt hk)
  have h1' : k * T + T ≤ ((n + T - 1) / T) * T := by
    rw [← Nat.succ_mul]; exact h1
  have h2 : ((n + T - 1) / T) * T ≤ n + T - 1 := Nat.div_mul_le_self _ _
  have key : ∀ a b : ℕ, a + T ≤ b → b ≤ n + T - 1 → 0 < T → a < n := by
    intro a b ha hb hc; omega
  exact key _ _ h1' h2 hT

/-- No tile of the plan extends past the raster bounds. -/
lemma tilePlan_clip {W H T : ℕ} (hT : 0 < T) :
    ∀ t ∈ tilePlan W H T,
      t.col_off + t.width ≤ W ∧ t.row_off + t.height ≤ H := by
  intro t ht
  unfold tilePlan at ht
  rw [List.mem_flatMap] at ht
  obtain ⟨i, hi, hin⟩ := ht
  rw [List.mem_map] at hin
  obtain ⟨j, hj, rfl⟩ := hin
  unfold rangeStep at hi hj
  rw [List.mem_map] at hi hj
  obtain ⟨ki, hki, rfl⟩ := hi
  obtain ⟨kj, hkj, rfl⟩ := hj
  rw [List.mem_range] at hki hkj
  have h1 := rangeStep_mul_lt hT hkj
  have h2 := rangeStep_mul_lt hT hki
  have key : ∀ a m n : ℕ, a < n → m ≤ n - a → a + m ≤ n := by
    intro a m n ha hm; omega
  exact ⟨key _ _ _ h1 (min_le_right _ _), key _ _ _ h2 (min_le_right _ _)⟩

lemma rangeStep_pairwise_lt {n T : ℕ} (hT : 0 < T) :
    (rangeStep n T).Pairwise (· < ·) := by
  unfold rangeStep
  refine List.pairwise_map.mpr ?_
  exact (List.pairwise_lt_range _).imp fun h => Nat.mul_lt_mul_of_lt_of_le h le_rfl hT

/-- The plan is emitted in strict row-major order. -/
lemma tilePlan_rowMajor {W H T : ℕ} (hT : 0 < T) :
    (tilePlan W H T).Pairwise rowMajorLT := by
  unfold tilePlan
  refine List.pairwise_flatMap.mpr ⟨?_, ?_⟩
  · intro i _hi
    refine List.pairwise_map.mpr ?_
    exact (rangeStep_pairwise_lt hT).imp fun hab => Or.inr ⟨rfl, hab⟩
  · refine (rangeStep_pairwise_lt hT).imp ?_
    intro i i' hii t ht t' ht'
    rw [List.mem_map] at ht ht'
    obtain ⟨j, _, rfl⟩ := ht
    obtain ⟨j', _, rfl⟩ := ht'
    exact Or.inl hii

/-- **C7** For every raster size and positive tile size, the tile planner's
tiles come in row-major order, no tile extends past the raster bounds
(`col_off + width ≤ W`, `row_off + height ≤ H`), and every pixel of the
raster is covered by exactly one tile (hence the tiles are pairwise disjoint
and cover the grid with no gaps). -/
theorem tile_grid_planner_correct (W H T : ℕ) (hT : 0 < T) :
    (tilePlan W H T).Pairwise rowMajorLT ∧
    (∀ t ∈ tilePlan W H T,
      t.col_off + t.width ≤ W ∧ t.row_off + t.height ≤ H) ∧
    ∀ x y, x < W → y < H →
      (tilePlan W H T).countP (fun t => t.contains x y) = 1 :=
  ⟨tilePlan_rowMajor hT, tilePlan_clip hT,
    fun _ _ hx hy => tilePlan_coversOnce_point hT hx hy⟩

/-- Witness for **C7**: a 5 × 3 raster with tile size 2; pixel (4, 2) is
covered by exactly one tile. -/
theorem tile_grid_planner_correct_witness :
    0 < 2 ∧ (tilePlan 5 3 2).countP (fun t => t.contains 4 2) = 1 :=
  ⟨by decide, (tile_grid_planner_correct 5 3 2 (by decide)).2.2 4 2
    (by decide) (by decide)⟩

/-! ## `replace_pixel_value`: per-pixel semantics -/

lemma foldl_writeTile_of_contains (srcD refD : ℕ → ℕ → ℤ) (v : ℤ)
    (d : ℕ → ℕ → ℤ) (bs : List Tile) (x y : ℕ)
    (h : ∃ t ∈ bs, t.contains x y) :
    bs.foldl (writeTile srcD refD v) d y x
      = if srcD y x = v then refD y x else srcD y x := by
  induction bs using List.reverseRecOn generalizing d with
  | nil => simp at h
  | append_singleton bs t ih =>
    rw [List.foldl_append, List.foldl_cons, List.foldl_nil]
    by_cases hc : t.contains x y
    · simp [writeTile, hc]
    · have h' : ∃ t' ∈ bs, t'.contains x y = true := by
        obtain ⟨t', ht', hcc⟩ := h
        rcases List.mem_append.mp ht' with hmem | hmem
        · exact ⟨t', hmem, hcc⟩
        · rw [List.mem_singleton] at hmem
          subst hmem
          exact absurd hcc hc
      simp only [writeTile, hc, if_neg, Bool.false_eq_true, ite_false]
      exact ih _ h'

/-- **C10** For every pixel of the processed band: if the source pixel
differs from `value_to_replace` the output equals the source pixel; if it
equals `value_to_replace` the output equals the reference raster's pixel at
the same position — for every positive tile size. -/
theorem replace_pixel_value_pointwise (W H T : ℕ) (srcD refD : ℕ → ℕ → ℤ)
    (v : ℤ) (x y : ℕ) (hT : 0 < T) (hx : x < W) (hy : y < H) :
    replace_pixel_value W H T srcD refD v y x
      = if srcD y x = v then refD y x else srcD y x := by
  refine foldl_writeTile_of_contains srcD refD v _ _ x y ?_
  have h1 := tilePlan_coversOnce_point (x := x) (y := y) hT hx hy
  exact List.countP_pos_iff.mp (by rw [h1]; exact Nat.one_pos)

/-- Witness for **C10**: a 3 × 2 raster, tile size 2.  Pixel (2, 1) holds the
replaced value 4 and receives the reference value 7; the source pixel value
at (0, 0) is 5 and is kept. -/
theorem replace_pixel_value_pointwise_witness :
    replace_pixel_value 3 2 2 (fun y x => if y = 1 ∧ x = 2 then 4 else 5)
      (fun _ _ => 7) 4 1 2 = 7 ∧
    replace_pixel_value 3 2 2 (fun y x => if y = 1 ∧ x = 2 then 4 else 5)
      (fun _ _ => 7) 4 0 0 = 5 := by
  constructor
  · rw [replace_pixel_value_pointwise 3 2 2 _ _ 4 2 1 (by decide) (by decide)
      (by decide)]
    decide
  · rw [replace_pixel_value_pointwise 3 2 2 _ _ 4 0 0 (by decide) (by decide)
      (by decide)]
    decide

/-! ## `compute_probability_of_phenomena`: accumulation -/

lemma foldl_addWindowOcc (dat : ℕ → ℕ → ℤ) (v : ℤ) (bs : List Tile)
    (acc : ℕ → ℕ → ℤ) (y x : ℕ) :
    bs.foldl (fun a w => addWindowOcc dat v w a) acc y x
      = acc y x + (bs.countP fun w => w.contains x y) *
          (if dat y x = v then 1 else 0) := by
  induction bs generalizing acc with
  | nil => simp
  | cons w bs ih =>
    rw [List.foldl_cons, ih]
    simp only [addWindowOcc, List.countP_cons]
    by_cases hw : w.contains x y <;> by_cases hv : dat y x = v <;>
      (simp [hw, hv]; try ring)

lemma processRasterOcc_eq (r : PRaster) (v : ℤ) (acc : ℕ → ℕ → ℤ) (y x : ℕ) :
    processRasterOcc r v acc y x
      = acc y x + (r.blocks.countP fun w => w.contains x y) *
          (if r.data y x = v then 1 else 0) :=
  foldl_addWindowOcc r.data v r.blocks acc y x

lemma totalOccurrences_from (rs : List PRaster) (v : ℤ) {W H : ℕ} (x y : ℕ)
    (hcov : ∀ r ∈ rs, coversOnce W H r.blocks) (hx : x < W) (hy : y < H) :
    ∀ acc : ℕ → ℕ → ℤ,
      rs.foldl (fun a r => processRasterOcc r v a) acc y x
        = acc y x + ((rs.countP fun r => decide (r.data y x = v) : ℕ) : ℤ) := by
  induction rs with
  | nil => intro acc; simp
  | cons r rs ih =>
    intro acc
    rw [List.foldl_cons, ih (fun r' hr' => hcov r' (List.mem_cons_of_mem _ hr'))]
    rw [processRasterOcc_eq, hcov r (List.mem_cons_self _ _) x y hx hy]
    simp only [List.countP_cons, one_mul]
    by_cases hv : r.data y x = v <;> (simp [hv]; try ring)

lemma totalOccurrences_eq (rs : List PRaster) (v : ℤ) {W H : ℕ} (x y : ℕ)
    (hcov : ∀ r ∈ rs, coversOnce W H r.blocks) (hx : x < W) (hy : y < H) :
    totalOccurrences rs v y x
      = ((rs.countP fun r => decide (r.data y x = v) : ℕ) : ℤ) := by
  unfold totalOccurrences
  rw [totalOccurrences_from rs v x y hcov hx hy]
  simp

/-- **C9** With every input raster tiled exactly once by its block windows,
the value written at each pixel is (number of rasters whose pixel equals the
phenomena value) / (number of rasters); it lies in `[0, 1]`, and each raster
contributes at most 1 per pixel during its accumulation pass (the pass
starting from any accumulator state increases a cell by at most 1). -/
theorem probability_of_phenomena_correct (rs : List PRaster) (v : ℤ)
    (W H x y : ℕ) (hcov : ∀ r ∈ rs, coversOnce W H r.blocks)
    (hne : rs ≠ []) (hx : x < W) (hy : y < H) :
    probabilityOfPhenomena rs v y x
      = ((rs.countP fun r => decide (r.data y x = v) : ℕ) : ℚ) /
          ((rs.length : ℕ) : ℚ) ∧
    0 ≤ probabilityOfPhenomena rs v y x ∧
    probabilityOfPhenomena rs v y x ≤ 1 ∧
    ∀ r ∈ rs, ∀ acc : ℕ → ℕ → ℤ,
      processRasterOcc r v acc y x ≤ acc y x + 1 := by
  have htot := totalOccurrences_eq rs v x y hcov hx hy
  have hlen : 0 < rs.length := List.length_pos.mpr hne
  have hcount : (rs.countP fun r => decide (r.data y x = v)) ≤ rs.length :=
    List.countP_le_length _
  have heq : probabilityOfPhenomena rs v y x
      = ((rs.countP fun r => decide (r.data y x = v) : ℕ) : ℚ) /
          ((rs.length : ℕ) : ℚ) := by
    unfold probabilityOfPhenomena
    rw [htot]
    push_cast
    ring
  refine ⟨heq, ?_, ?_, ?_⟩
  · rw [heq]
    positivity
  · rw [heq]
    rw [div_le_one (by exact_mod_cast hlen)]
    exact_mod_cast hcount
  · intro r hr acc
    rw [processRasterOcc_eq, hcov r hr x y hx hy]
    by_cases hv : r.data y x = v <;> simp [hv]

/-- Witness for **C9**: two 1 × 1 rasters, one holding the phenomena value 3
and one holding 0; the probability at the only pixel is 1/2. -/
theorem probability_of_phenomena_correct_witness :
    probabilityOfPhenomena
      [⟨fun _ _ => 3, [⟨0, 0, 1, 1⟩]⟩, ⟨fun _ _ => 0, [⟨0, 0, 1, 1⟩]⟩] 3 0 0
      = 1 / 2 := by
  have h := probability_of_phenomena_correct
    [⟨fun _ _ => 3, [⟨0, 0, 1, 1⟩]⟩, ⟨fun _ _ => 0, [⟨0, 0, 1, 1⟩]⟩] 3 1 1 0 0
    (by
      intro r hr x y hx hy
      have hx0 : x = 0 := Nat.lt_one_iff.mp hx
      have hy0 : y = 0 := Nat.lt_one_iff.mp hy
      subst hx0; subst hy0
      rcases List.mem_cons.mp hr with rfl | hr'
      · decide
      · rcases List.mem_cons.mp hr' with rfl | hr''
        · decide
        · simp at hr'')
    (by simp) (by decide) (by decide)
  rw [h.1]
  have hc : List.countP (fun r => decide (r.data 0 0 = 3))
      [(⟨fun _ _ => 3, [⟨0, 0, 1, 1⟩]⟩ : PRaster),
        ⟨fun _ _ => 0, [⟨0, 0, 1, 1⟩]⟩] = 1 := by decide
  rw [hc]
  norm_num


/-! ## The reducers: missing-value exclusion and concrete values -/

/-- The faithful dispatch `focal_reduce_real` refines into the computation:
on every stat other than `"std"` it is the `ℝ`-cast of `focal_reduce`, and on
`"std"` it is `np_std` behind the same non-emptiness guard. -/
lemma focal_reduce_real_spec (stat : String) (valid : List ℚ) :
    (stat ≠ "std" → focal_reduce_real stat valid
        = (focal_reduce stat valid).map fun q => ((q : ℚ) : ℝ)) ∧
    focal_reduce_real "std" valid
        = if 0 < valid.length then some (np_std valid) else none := by
  constructor
  · intro h
    unfold focal_reduce_real focal_reduce
    split_ifs <;> simp_all
  · unfold focal_reduce_real
    split_ifs <;> simp_all

/-- Claim C3: a window's output depends only on its valid (non-missing)
values — for every implemented reducer, including the `"std"` branch of the
faithful dispatch `focal_reduce_real` — windows with the same valid-value
sequence reduce identically, and a window with no valid values produces the
missing marker `none` (written out as the NoData sentinel), never an
exception. -/
theorem focal_missing_exclusion (stat : String) (w1 w2 : List (Option ℚ))
    (h : w1.filterMap id = w2.filterMap id) :
    pixelReduceReal stat w1 = pixelReduceReal stat w2 ∧
    pixelReduce stat w1 = pixelReduce stat w2 ∧
    (w1.filterMap id = [] →
      pixelReduceReal stat w1 = none ∧ pixelReduce stat w1 = none) := by
  refine ⟨?_, ?_, ?_⟩
  · unfold pixelReduceReal
    rw [h]
  · unfold pixelReduce
    rw [h]
  · intro he
    constructor
    · unfold pixelReduceReal
      rw [he]
      rfl
    · unfold pixelReduce
      rw [he]
      rfl

/-- Witness for claim C3: the windows `[1, NaN, 2]` and `[NaN, 1, 2, NaN]`
share the valid values `[1, 2]` and reduce identically, for the `"std"`
branch of the faithful dispatch as well as for `"mean"`; the all-missing
window `[NaN, NaN]` reduces to the missing marker at both layers. -/
theorem focal_missing_exclusion_witness :
    pixelReduceReal "std" [some 1, none, some 2]
      = pixelReduceReal "std" [none, some 1, some 2, none] ∧
    pixelReduce "mean" [some 1, none, some 2]
      = pixelReduce "mean" [none, some 1, some 2, none] ∧
    pixelReduceReal "std" [none, none] = none ∧
    pixelReduce "mean" [none, none] = none :=
  ⟨(focal_missing_exclusion "std" [some 1, none, some 2]
      [none, some 1, some 2, none] (by decide)).1,
   (focal_missing_exclusion "mean" [some 1, none, some 2]
      [none, some 1, some 2, none] (by decide)).2.1,
   ((focal_missing_exclusion "std" [none, none] [none, none] rfl).2.2
      (by decide)).1,
   ((focal_missing_exclusion "mean" [none, none] [none, none] rfl).2.2
      (by decide)).2⟩

/-- **C5** The reducers on the valid values `[1, 2, 3, 4]`: mean 5/2,
median 5/2, min 1, max 4, sum 10, range 3, variance 5/4 (the population
variance — the sample variance would be 5/3), and
std = √(5/4) = 1.1180… ∈ (1.118, 1.1181). -/
theorem focal_reducer_values :
    focal_reduce "mean" [1, 2, 3, 4] = some (5 / 2) ∧
    focal_reduce "median" [1, 2, 3, 4] = some (5 / 2) ∧
    focal_reduce "min" [1, 2, 3, 4] = some 1 ∧
    focal_reduce "max" [1, 2, 3, 4] = some 4 ∧
    focal_reduce "sum" [1, 2, 3, 4] = some 10 ∧
    focal_reduce "range" [1, 2, 3, 4] = some 3 ∧
    focal_reduce "variance" [1, 2, 3, 4] = some (5 / 4) ∧
    varianceQ [1, 2, 3, 4] ≠ 5 / 3 ∧
    np_std [1, 2, 3, 4] = Real.sqrt (5 / 4) ∧
    (1.118 : ℝ) < np_std [1, 2, 3, 4] ∧ np_std [1, 2, 3, 4] < 1.1181 := by
  have hvar : varianceQ [1, 2, 3, 4] = 5 / 4 := by
    norm_num [varianceQ, meanQ, List.sum_cons, List.sum_nil]
  have hstd : np_std [1, 2, 3, 4] = Real.sqrt (5 / 4) := by
    unfold np_std
    rw [hvar]
    norm_num
  have hmean : focal_reduce "mean" [1, 2, 3, 4] = some (meanQ [1, 2, 3, 4]) :=
    rfl
  have hmedian : focal_reduce "median" [1, 2, 3, 4]
      = some (medianQ [1, 2, 3, 4]) := rfl
  have hsum : focal_reduce "sum" [1, 2, 3, 4]
      = some ([1, 2, 3, 4] : List ℚ).sum := rfl
  have hrange : focal_reduce "range" [1, 2, 3, 4]
      = some (listMaxQ [1, 2, 3, 4] - listMinQ [1, 2, 3, 4]) := rfl
  have hvard : focal_reduce "variance" [1, 2, 3, 4]
      = some (varianceQ [1, 2, 3, 4]) := rfl
  refine ⟨?_, ?_, by decide, by decide, ?_, ?_, ?_, ?_, hstd, ?_, ?_⟩
  · rw [hmean]
    norm_num [meanQ, List.sum_cons, List.sum_nil]
  · rw [hmedian]
    norm_num [medianQ, sortQ, insertSorted, List.getD]
  · rw [hsum]
    norm_num [List.sum_cons, List.sum_nil]
  · rw [hrange]
    norm_num [listMaxQ, listMinQ]
  · rw [hvard, hvar]
  · rw [hvar]
    norm_num
  · rw [hstd]
    rw [show ((5 : ℝ) / 4) = 1.25 by norm_num]
    exact (Real.lt_sqrt (x := (1.118 : ℝ)) (y := (1.25 : ℝ))
      (by norm_num)).mpr (by norm_num)
  · rw [hstd]
    rw [show ((5 : ℝ) / 4) = 1.25 by norm_num]
    exact (Real.sqrt_lt' (x := (1.25 : ℝ)) (y := (1.1181 : ℝ))
      (by norm_num)).mpr (by norm_num)

/-- **C6** The CLI of `focal_stat_raster.py` offers `majority`, `minority`
and `unique_count` as `stat` choices, but `focal_stat` has no branch for any
of them: with those stats every window — here the valid values
`[1, 1, 2, 2]`, for which the spec promises majority = minority = 1 — is
left at the missing marker, so the whole output raster is NoData. -/
theorem focal_majority_minority_unimplemented :
    ("majority" ∈ cliStatChoices ∧ "minority" ∈ cliStatChoices ∧
      "unique_count" ∈ cliStatChoices) ∧
    focal_reduce "majority" [1, 1, 2, 2] = none ∧
    focal_reduce "minority" [1, 1, 2, 2] = none ∧
    focal_reduce "unique_count" [1, 1, 2, 2] = none := by
  refine ⟨⟨by decide, by decide, by decide⟩, by decide, by decide, by decide⟩

/-! ## The padded window of `focal_stat_raster` -/

/-- **C1** (violated by the code) For the 10 × 10 raster, the clipped last
tile `col_off = 8, width = 2` of a row and halo radius 1: the padded window
is in bounds and its offset is `max(0, col_off - r)` as the claim states,
but the per-side padding identity fails — the code computes width
`min(w + 2r, W - col_off) = 2`, so
`pad_left + padded.width + pad_right = 0 + 2 + 1 = 3` while the claim
requires `tile.width + 2*r = 4`. -/
theorem paddedWindow_pad_sum_violation :
    (paddedWindow 10 10 ⟨8, 0, 2, 10⟩ 1).col_off
        = max 0 (((8 : ℕ) : ℤ) - 1) ∧
    0 ≤ (paddedWindow 10 10 ⟨8, 0, 2, 10⟩ 1).col_off ∧
    (paddedWindow 10 10 ⟨8, 0, 2, 10⟩ 1).col_off
        + (paddedWindow 10 10 ⟨8, 0, 2, 10⟩ 1).width ≤ 10 ∧
    padLeftSpec 1 ⟨8, 0, 2, 10⟩
        + (paddedWindow 10 10 ⟨8, 0, 2, 10⟩ 1).width
        + padRightSpec 10 1 ⟨8, 0, 2, 10⟩ = 3 ∧
    ((2 : ℤ) + 2 * 1 = 4 ∧ (3 : ℤ) ≠ 4) := by
  refine ⟨by decide, by decide, by decide, by decide, by decide, by decide⟩


/-! ## The end-to-end scenario and the halo handling -/

/-- The 10 × 10 raster of the end-to-end scenario: every cell 5.0 except
cell (0, 0), which carries the NoData sentinel −9999. -/
def scenarioData : List (List ℚ) :=
  ((-9999) :: List.replicate 9 5) :: List.replicate 9 (List.replicate 10 5)

/-- **C2** (violated by the code) Running the focal transform with kernel
size 3 and `mean` over the end-to-end scenario raster (one 10 × 10 block)
does not complete: the padded window is clipped to
`min(w + 2·1, 10 − 0) = 10` columns/rows, `focal_stat` trims one ring of
padding and hands an 8 × 8 array to `dst.write` for the 10 × 10 block
window, which raises — no output values are ever produced. -/
theorem focal_stat_raster_scenario_crash :
    focal_stat_raster ⟨10, 10, some (-9999), scenarioData⟩
      [⟨0, 0, 10, 10⟩] 3 "mean" = Except.error shapeMsg := rfl

/-- The 12 × 12 probe raster: every cell 5 except cell (2, 2) = 1. -/
def haloProbeData : List (List ℚ) :=
  (List.range 12).map fun i => (List.range 12).map fun j =>
    if i = 2 ∧ j = 2 then (1 : ℚ) else 5

/-- **C4** (violated by the code) For the first tile `(0, 0, 4, 4)` of the
12 × 12 probe raster with halo radius 1, the conceptually padded window
extends one column/row past the top-left raster edge
(`pad_left = pad_top = 1`), but the code synthesizes no missing positions:
after NoData conversion every buffer cell is a valid value (first conjunct),
because the code reads the in-bounds window `[0, 6) × [0, 6)` instead.  The
reducer for output cell (0, 0) therefore runs on the nine raster cells
`[0, 3) × [0, 3)` — including cell (2, 2) = 1 — and yields `min = 1`, where
the claim's semantics (out-of-raster positions missing) would reduce the
four valid cells `[0, 2) × [0, 2)`, all 5, to `min = 5`. -/
theorem focal_halo_not_synthesized :
    (((boundlessRead haloProbeData (paddedWindow 12 12 ⟨0, 0, 4, 4⟩ 1)).map
        (·.map fun x => if x = (-9999 : ℚ) then none else some x)).all
      (·.all Option.isSome)) = true ∧
    padLeftSpec 1 ⟨0, 0, 4, 4⟩ = 1 ∧
    (processTile ⟨12, 12, some (-9999), haloProbeData⟩ (-9999) 3 "min"
        ⟨0, 0, 4, 4⟩).toOption.map (fun m => (m.headD []).headD 0)
      = some 1 ∧
    listMinQ [5, 5, 5, 5] = 5 := by
  refine ⟨by decide, by decide, by decide, by decide⟩

/-! ## The NoData pre-flight check -/

lemma processTile_cases (src : SrcRaster) (nd : ℚ) (ksize : ℕ) (stat : String)
    (t : Tile) :
    (∃ out, processTile src nd ksize stat t = Except.ok out) ∨
      processTile src nd ksize stat t = Except.error shapeMsg := by
  unfold processTile
  dsimp only
  split
  · exact Or.inl ⟨_, rfl⟩
  · exact Or.inr rfl

lemma foldlM_processTile_cases (src : SrcRaster) (nd : ℚ) (ksize : ℕ)
    (stat : String) (bs : List Tile) (acc : List (Tile × List (List ℚ))) :
    (∃ out, bs.foldlM (fun acc t => (processTile src nd ksize stat t).map
        fun o => acc ++ [(t, o)]) acc = Except.ok out) ∨
      bs.foldlM (fun acc t => (processTile src nd ksize stat t).map
        fun o => acc ++ [(t, o)]) acc = Except.error shapeMsg := by
  induction bs generalizing acc with
  | nil => exact Or.inl ⟨acc, rfl⟩
  | cons t bs ih =>
    rw [List.foldlM_cons]
    rcases processTile_cases src nd ksize stat t with ⟨out, hout⟩ | herr
    · rw [hout]
      exact ih (acc ++ [(t, out)])
    · rw [herr]
      exact Or.inr rfl

/-- **C8** With no NoData sentinel declared, `focal_stat_raster` fails with
the `ValueError` before the output raster is opened and before any block is
read, transformed or written — the result is the same error for every data
array, block list, kernel size and stat, and carries no partial output.
With a sentinel declared, this error branch is never taken: the run either
succeeds or fails with the (distinct) write-shape error. -/
theorem focal_nodata_preflight (W H : ℕ) (data : List (List ℚ))
    (blocks : List Tile) (ksize : ℕ) (stat : String) :
    focal_stat_raster ⟨W, H, none, data⟩ blocks ksize stat
        = Except.error noDataMsg ∧
    noDataMsg ≠ shapeMsg ∧
    ∀ nd : ℚ,
      (∃ out, focal_stat_raster ⟨W, H, some nd, data⟩ blocks ksize stat
          = Except.ok out) ∨
      focal_stat_raster ⟨W, H, some nd, data⟩ blocks ksize stat
          = Except.error shapeMsg := by
  refine ⟨rfl, by decide, ?_⟩
  intro nd
  exact foldlM_processTile_cases ⟨W, H, some nd, data⟩ nd ksize stat blocks []

end OpenGeo
